import Mathlib

/-!
Shallow embedding of the asynchronous job-lifecycle core of the
ableton-mcp-extended repository (comfyui_mcp/client.py, comfyui_mcp/server.py,
uvr5_mcp/client.py, uvr5_mcp/server.py, localai_mcp/utils.py).

Network I/O is modelled by explicit oracle arguments: an HTTP response is a
value of an inductive type (transport error or status + body), a polling
endpoint is a function from poll index to response, and `time.time()` inside
the wait loop is modelled by counting sleeps (each poll is instantaneous and
each sleep advances the clock by `poll_interval`). Python exceptions are
modelled with `Except`; functions that catch all exceptions are total.
-/

namespace AbletonMCP

/-- An HTTP response as seen by the client: a raised transport-level error
(connection refused, DNS failure, timeout, ...) or a status code and body. -/
inductive HttpResp where
  | err (msg : String)
  | ok (status : Nat) (body : String)
deriving DecidableEq, Repr

/-- Whether a status code is in the 2xx success range. -/
def is2xx (s : Nat) : Bool := 200 ≤ s && s < 300

/-- `ComfyUIClient.check_health` (client.py:40-52): GET `/system_stats`;
returns `status_code == 200`, and `false` on any exception. -/
def check_health (r : HttpResp) : Bool :=
  match r with
  | .err _ => false
  | .ok status _ => status == 200

/-- One file entry inside a node output list (`img.get("filename")`,
`img.get("subfolder", "")` in client.py:199-213): both keys may be absent. -/
structure FileEntry where
  filename : Option String
  subfolder : Option String
deriving DecidableEq, Repr

/-- A node's output dictionary, as the code reads it: an association from
output-kind key (`"images"`, `"audio"`, ...) to a list of file entries. -/
abbrev NodeOutput := List (String × List FileEntry)

/-- The history record for one prompt id. `outputs = none` models a record
with no `"outputs"` key (the code tests `"outputs" in prompt_data`). -/
structure PromptData where
  outputs : Option (List (String × NodeOutput))
deriving DecidableEq, Repr

/-- The history endpoint's answer for a given prompt id: `none` models
`prompt_id not in history` (in particular the `{}` returned on error). -/
abbrev HistoryResp := Option PromptData

/-- `ComfyUIClient.get_history` (client.py:130-146): returns the parsed
response, or `{}` — i.e. no record for the prompt id — on any exception. -/
def get_history (r : Except String HistoryResp) : HistoryResp :=
  match r with
  | .error _ => none
  | .ok h => h

/-- The completion test of `wait_for_completion` (client.py:165-169):
`prompt_id in history` and `"outputs" in history[prompt_id]`. -/
def historyCompleted (h : HistoryResp) : Bool :=
  match h with
  | none => false
  | some pd => pd.outputs.isSome

/-- The loop body of `ComfyUIClient.wait_for_completion` (client.py:160-177).
`n` counts completed sleeps, so the elapsed wall-clock time at the loop head
is `n * P` (polls are instantaneous in this model). The loop runs while
`elapsed < max_wait` (strict, as in the source); on an incomplete poll it
sleeps once and retries. The fuel argument only ensures termination: for
`0 < P` the loop condition fails once `n ≥ T`, so fuel `T + 1` is never
exhausted; exhaustion returns the same timeout result as the `else` branch. -/
def waitAux (T P : Nat) (obs : Nat → Bool) : Nat → Nat → Bool × Nat
  | n, 0 => (false, n)
  | n, fuel + 1 =>
    if n * P < T then
      if obs n then (true, n) else waitAux T P obs (n + 1) fuel
    else
      (false, n)

/-- `ComfyUIClient.wait_for_completion` (client.py:148-177) over a poll
oracle `polls` giving the history response of the n-th poll (issued at
elapsed time `n * P`). Returns the boolean result together with the number
of sleeps performed, i.e. the blocked wall-clock time divided by `P`. -/
def wait_for_completion (T P : Nat) (polls : Nat → Except String HistoryResp) :
    Bool × Nat :=
  waitAux T P (fun n => historyCompleted (get_history (polls n))) 0 (T + 1)

/-- If no poll made strictly before the deadline observes completion, the
wait loop reports failure, whatever the fuel. -/
lemma waitAux_no_success (T P : Nat) (obs : Nat → Bool)
    (hno : ∀ m, m * P < T → obs m = false) :
    ∀ fuel n, (waitAux T P obs n fuel).1 = false := by
  intro fuel
  induction fuel with
  | zero => intro n; simp [waitAux]
  | succ k ih =>
    intro n
    by_cases h : n * P < T
    · simp only [waitAux, h, if_true, hno n h, if_false]
      exact ih (n + 1)
    · simp [waitAux, h]

/-- Arithmetic step for the exit bound: a loop iteration index whose
predecessor was still below the deadline is itself below `T + P`. -/
lemma pred_lt_deadline {n P T : Nat} (h : (n - 1) * P < T) : n * P < T + P := by
  rcases n with _ | m
  · exact Nat.lt_of_lt_of_le (by simpa using h) (Nat.le_add_right T P)
  · rw [Nat.succ_mul]
    exact Nat.add_lt_add_right (by simpa using h) P

/-- The exit iteration count is bounded: the loop sleeps at most
`⌈T/P⌉` times, so the blocked time `snd * P` is below `T + P`. -/
lemma waitAux_exit_bound (T P : Nat) (obs : Nat → Bool) (hP : 0 < P) :
    ∀ fuel n, (n = 0 ∨ (n - 1) * P < T) →
      (waitAux T P obs n fuel).2 * P < T + P := by
  intro fuel
  induction fuel with
  | zero =>
    intro n hn
    rcases hn with h0 | hlt
    · subst h0; simpa [waitAux] using Nat.lt_of_lt_of_le hP (Nat.le_add_left P T)
    · simpa only [waitAux] using pred_lt_deadline hlt
  | succ k ih =>
    intro n hn
    by_cases h : n * P < T
    · by_cases ho : obs n
      · simp only [waitAux, h, if_true, ho]
        exact Nat.lt_of_lt_of_le h (Nat.le_add_right T P)
      · simp only [waitAux, h, if_true, ho, if_false]
        exact ih (n + 1) (Or.inr (by simpa using h))
    · simp only [waitAux, h, if_false]
      rcases hn with h0 | hlt
      · subst h0; simpa using Nat.lt_of_lt_of_le hP (Nat.le_add_left P T)
      · exact pred_lt_deadline hlt

/-- If some poll strictly before the deadline observes completion, the loop
reaches the first such poll and returns success. -/
lemma waitAux_success (T P : Nat) (obs : Nat → Bool) (m : Nat)
    (hm : m * P < T) (hobs : obs m = true)
    (hmin : ∀ k, k < m → obs k = false) :
    ∀ fuel n, n ≤ m → m - n < fuel → (waitAux T P obs n fuel).1 = true := by
  intro fuel
  induction fuel with
  | zero => intro n _ hlt; exact absurd hlt (by simp)
  | succ k ih =>
    intro n hnm hfuel
    have hnP : n * P < T :=
      Nat.lt_of_le_of_lt (Nat.mul_le_mul_right P hnm) hm
    by_cases heq : n = m
    · subst heq; simp [waitAux, hnP, hobs]
    · have hlt : n < m := Nat.lt_of_le_of_ne hnm heq
      simp only [waitAux, hnP, if_true, hmin n hlt, if_false]
      exact ih (n + 1) hlt (by omega)

/-- A polling backend on which the success record (a history entry carrying
an `"outputs"` section) becomes observable exactly from time `t₀` on: the
poll issued at elapsed time `n * P` sees it iff `t₀ ≤ n * P`. -/
def successAt (t₀ P : Nat) : Nat → Except String HistoryResp :=
  fun n => if t₀ ≤ n * P then Except.ok (some ⟨some []⟩) else Except.ok none

/-- C1: `wait_for_completion(max_wait = T, poll_interval = P)` returns
`false` whenever no poll made strictly within `T` seconds observes a history
record with an `"outputs"` section, and the loop performs at most
`⌈T/P⌉ = (T + P - 1)/P` sleeps of `P` seconds each, so the caller is blocked
strictly less than `T + P` seconds. -/
theorem wait_for_completion_timeout_and_bound (T P : Nat)
    (polls : Nat → Except String HistoryResp) (hP : 0 < P) :
    ((∀ n, n * P < T → historyCompleted (get_history (polls n)) = false) →
        (wait_for_completion T P polls).1 = false)
    ∧ (wait_for_completion T P polls).2 * P < T + P
    ∧ (wait_for_completion T P polls).2 ≤ (T + P - 1) / P := by
  have hb : (wait_for_completion T P polls).2 * P < T + P := waitAux_exit_bound T P
    (fun n => historyCompleted (get_history (polls n))) hP (T + 1) 0 (Or.inl rfl)
  refine ⟨fun hno => waitAux_no_success T P _ hno (T + 1) 0, hb, ?_⟩
  exact (Nat.le_div_iff_mul_le hP).mpr (by omega)

/-- Witness for C1 at `T = 3`, `P = 2` against a backend that never
completes: the call returns `false` after 2 sleeps (4 seconds < 3 + 2). -/
theorem wait_for_completion_timeout_and_bound_witness :
    ((∀ n, n * 2 < 3 →
        historyCompleted (get_history
          ((fun _ => Except.ok none : Nat → Except String HistoryResp) n)) = false) →
      (wait_for_completion 3 2 (fun _ => Except.ok none)).1 = false)
    ∧ (wait_for_completion 3 2 (fun _ => Except.ok none)).2 * 2 < 3 + 2
    ∧ (wait_for_completion 3 2 (fun _ => Except.ok none)).2 ≤ (3 + 2 - 1) / 2 :=
  wait_for_completion_timeout_and_bound 3 2 (fun _ => Except.ok none) (by decide)

/-- C2: the elapsed-time check is authoritative over success. If the success
record only becomes observable at a time `t₀` at or after the `max_wait`
deadline `T`, the wait loop returns `false` (timeout), never `true`: the
loop condition `elapsed < max_wait` is strict, so no poll at or past the
deadline is ever issued. -/
theorem wait_deadline_tie_break_timeout (T P t₀ : Nat) (_hP : 0 < P)
    (ht : T ≤ t₀) :
    (wait_for_completion T P (successAt t₀ P)).1 = false := by
  apply waitAux_no_success
  intro m hm
  have hlt : ¬ t₀ ≤ m * P := by omega
  simp [successAt, get_history, historyCompleted, hlt]

/-- Witness for C2 at `T = 2`, `P = 1`, success record arriving exactly at
the deadline `t₀ = 2`: the call times out. -/
theorem wait_deadline_tie_break_timeout_witness :
    (wait_for_completion 2 1 (successAt 2 1)).1 = false :=
  wait_deadline_tie_break_timeout 2 1 2 (by decide) (by decide)

/-- Key lookup in a Python dict modelled as an association list
(`key in d` / `d[key]`; dict keys are unique). -/
def lookupKey {α : Type} (k : String) (l : List (String × α)) : Option α :=
  (l.find? (fun p => p.1 == k)).map (·.2)

/-- A JSON value, as stored in a workflow template file. -/
inductive JVal where
  | str (s : String)
  | num (n : Int)
  | boolean (b : Bool)
  | null
  | arr (elems : List JVal)
  | obj (fields : List (String × JVal))

/-- A workflow template: the top-level JSON object, node id → node data
(`workflow: Dict[str, Any]` in the source). -/
abbrev Workflow := List (String × JVal)

/-- Python in-place assignment `d[a] = v` on a dict modelled as an
association list with unique keys: the entry at key `a` gets value `v`,
everything else is untouched and order is preserved. -/
def setKey (a : String) (v : JVal) (l : List (String × JVal)) :
    List (String × JVal) :=
  l.map (fun f => if f.1 = a then (f.1, v) else f)

/-- The condition of the injection loop in `execute_workflow`
(server.py:81-84): the node data is a dict, its `"inputs"` entry (defaulted
to `{}`) is a dict, and that dict contains the key `"text"`. -/
def nodeHasTextInput (nd : JVal) : Bool :=
  match nd with
  | .obj fields =>
    match lookupKey "inputs" fields with
    | some (.obj il) => (lookupKey "text" il).isSome
    | _ => false
  | _ => false

/-- The body of the injection loop in `execute_workflow` (server.py:81-86):
`inputs["text"] = prompt_text` on the nodes selected by `nodeHasTextInput`,
every other node left untouched. -/
def injectNode (text : String) (nd : JVal) : JVal :=
  match nd with
  | .obj fields =>
    match lookupKey "inputs" fields with
    | some (.obj il) =>
      if (lookupKey "text" il).isSome then
        .obj (setKey "inputs" (.obj (setKey "text" (.str text) il)) fields)
      else .obj fields
    | _ => .obj fields
  | nd => nd

/-- The prompt-text injection pass of `execute_workflow` (server.py:79-86):
walk the template's top-level entries and rewrite each node in place. -/
def injectText (text : String) (wf : Workflow) : Workflow :=
  wf.map (fun p => (p.1, injectNode text p.2))

/-- Unfolding of `lookupKey` over a cons cell. -/
lemma lookupKey_cons {α : Type} (k k₁ : String) (v₁ : α)
    (t : List (String × α)) :
    lookupKey k ((k₁, v₁) :: t) = if k₁ = k then some v₁ else lookupKey k t := by
  by_cases h : k₁ = k
  · simp [lookupKey, List.find?, h]
  · have hb : (k₁ == k) = false := beq_eq_false_iff_ne.mpr h
    simp [lookupKey, List.find?, h, hb]

/-- Unfolding of `setKey` over a cons cell. -/
lemma setKey_cons (a : String) (v : JVal) (k₁ : String) (v₁ : JVal)
    (t : List (String × JVal)) :
    setKey a v ((k₁, v₁) :: t) =
      (if k₁ = a then (k₁, v) else (k₁, v₁)) :: setKey a v t := rfl

/-- `setKey` leaves every key other than the assigned one unchanged. -/
lemma lookupKey_setKey_ne {a k : String} (v : JVal)
    (l : List (String × JVal)) (h : k ≠ a) :
    lookupKey k (setKey a v l) = lookupKey k l := by
  induction l with
  | nil => rfl
  | cons hd t ih =>
    obtain ⟨k₁, v₁⟩ := hd
    rw [setKey_cons]
    by_cases h₁ : k₁ = a
    · have hk : k₁ ≠ k := fun hk => h (hk ▸ h₁)
      rw [if_pos h₁, lookupKey_cons, lookupKey_cons, if_neg hk, if_neg hk]
      exact ih
    · rw [if_neg h₁, lookupKey_cons, lookupKey_cons]
      by_cases h₂ : k₁ = k
      · rw [if_pos h₂, if_pos h₂]
      · rw [if_neg h₂, if_neg h₂]
        exact ih

/-- `setKey` on a present key makes that key map to the new value. -/
lemma lookupKey_setKey_self {a : String} (v : JVal)
    (l : List (String × JVal)) (h : (lookupKey a l).isSome = true) :
    lookupKey a (setKey a v l) = some v := by
  induction l with
  | nil => simp [lookupKey] at h
  | cons hd t ih =>
    obtain ⟨k₁, v₁⟩ := hd
    rw [setKey_cons]
    by_cases h₁ : k₁ = a
    · rw [if_pos h₁, lookupKey_cons, if_pos h₁]
    · rw [if_neg h₁, lookupKey_cons, if_neg h₁]
      apply ih
      rwa [lookupKey_cons, if_neg h₁] at h

/-- An entry whose key is not the assigned one survives `setKey` as-is. -/
lemma mem_setKey_of_ne {a : String} (v : JVal) (l : List (String × JVal))
    (f : String × JVal) (hf : f ∈ l) (hne : f.1 ≠ a) :
    f ∈ setKey a v l := by
  simpa [setKey, hne] using List.mem_map_of_mem
    (fun g => if g.1 = a then (g.1, v) else g) hf

/-- C7: the prompt-text injection is a frame-preserving overwrite. It keeps
the node ids and their order; every node without a `"text"` input (or whose
data or `"inputs"` entry is not a dict) is returned byte-identical; on a
node with a `"text"` input it only rewrites the `"inputs"` entry, and
inside it only the `"text"` parameter, which afterwards holds the injected
prompt; every entry under any other key — recognized or not — is preserved
verbatim, and no input ever makes the pass fail. -/
theorem inject_text_frame (text : String) :
    (∀ wf : Workflow, (injectText text wf).map Prod.fst = wf.map Prod.fst)
    ∧ (∀ wf : Workflow, ∀ nid nd, (nid, nd) ∈ wf →
        (nid, injectNode text nd) ∈ injectText text wf)
    ∧ (∀ nd, nodeHasTextInput nd = false → injectNode text nd = nd)
    ∧ (∀ fields il, lookupKey "inputs" fields = some (JVal.obj il) →
        (lookupKey "text" il).isSome = true →
        injectNode text (JVal.obj fields) =
          JVal.obj (setKey "inputs"
            (JVal.obj (setKey "text" (JVal.str text) il)) fields)
        ∧ (∀ k, k ≠ "inputs" →
            lookupKey k (setKey "inputs"
              (JVal.obj (setKey "text" (JVal.str text) il)) fields) =
              lookupKey k fields)
        ∧ (∀ f ∈ fields, f.1 ≠ "inputs" →
            f ∈ setKey "inputs"
              (JVal.obj (setKey "text" (JVal.str text) il)) fields)
        ∧ lookupKey "inputs" (setKey "inputs"
            (JVal.obj (setKey "text" (JVal.str text) il)) fields) =
            some (JVal.obj (setKey "text" (JVal.str text) il))
        ∧ (∀ k, k ≠ "text" →
            lookupKey k (setKey "text" (JVal.str text) il) = lookupKey k il)
        ∧ (∀ q ∈ il, q.1 ≠ "text" → q ∈ setKey "text" (JVal.str text) il)
        ∧ lookupKey "text" (setKey "text" (JVal.str text) il) =
            some (JVal.str text)) := by
  refine ⟨?_, ?_, ?_, ?_⟩
  · intro wf
    simp [injectText]
  · intro wf nid nd hmem
    simpa [injectText] using List.mem_map_of_mem
      (fun p => (p.1, injectNode text p.2)) hmem
  · intro nd hno
    match nd with
    | .str s => rfl
    | .num n => rfl
    | .boolean b => rfl
    | .null => rfl
    | .arr xs => rfl
    | .obj fields =>
      simp only [nodeHasTextInput] at hno
      simp only [injectNode]
      match hl : lookupKey "inputs" fields with
      | none => rfl
      | some (.str s) => rfl
      | some (.num n) => rfl
      | some (.boolean b) => rfl
      | some .null => rfl
      | some (.arr xs) => rfl
      | some (.obj il) =>
        rw [hl] at hno
        have hns : (lookupKey "text" il).isSome = false := by simpa using hno
        simp [hns]
  · intro fields il hl ht
    refine ⟨by simp [injectNode, hl, ht], ?_, ?_, ?_, ?_, ?_, ?_⟩
    · intro k hk
      exact lookupKey_setKey_ne _ fields hk
    · intro f hf hfk
      exact mem_setKey_of_ne _ fields f hf hfk
    · exact lookupKey_setKey_self _ fields (by simp [hl])
    · intro k hk
      exact lookupKey_setKey_ne _ il hk
    · intro q hq hqk
      exact mem_setKey_of_ne _ il q hq hqk
    · exact lookupKey_setKey_self _ il ht

/-- Witness for C7 on a two-node template: the node without a `"text"`
input is untouched, and in the node with one, the `"text"` parameter now
holds the prompt while its sibling `"clip"` parameter is unchanged. -/
theorem inject_text_frame_witness :
    injectNode "a warm pad" (JVal.obj [("inputs", JVal.obj [("seed", JVal.num 5)])]) =
      JVal.obj [("inputs", JVal.obj [("seed", JVal.num 5)])]
    ∧ lookupKey "text" (setKey "text" (JVal.str "a warm pad")
        [("text", JVal.str "old"), ("clip", JVal.num 1)]) =
        some (JVal.str "a warm pad")
    ∧ lookupKey "clip" (setKey "text" (JVal.str "a warm pad")
        [("text", JVal.str "old"), ("clip", JVal.num 1)]) =
        lookupKey "clip" [("text", JVal.str "old"), ("clip", JVal.num 1)]
    ∧ lookupKey "class_type" (setKey "inputs"
        (JVal.obj (setKey "text" (JVal.str "a warm pad")
          [("text", JVal.str "old"), ("clip", JVal.num 1)]))
        [("class_type", JVal.str "CLIPTextEncode"),
         ("inputs", JVal.obj [("text", JVal.str "old"), ("clip", JVal.num 1)])]) =
        lookupKey "class_type"
          [("class_type", JVal.str "CLIPTextEncode"),
           ("inputs", JVal.obj [("text", JVal.str "old"), ("clip", JVal.num 1)])] := by
  have h := inject_text_frame "a warm pad"
  have h4 := h.2.2.2
    [("class_type", JVal.str "CLIPTextEncode"),
     ("inputs", JVal.obj [("text", JVal.str "old"), ("clip", JVal.num 1)])]
    [("text", JVal.str "old"), ("clip", JVal.num 1)] (by rfl) (by rfl)
  exact ⟨h.2.2.1 _ (by rfl), h4.2.2.2.2.2.2,
    h4.2.2.2.2.1 "clip" (by decide), h4.2.1 "class_type" (by decide)⟩

/-- `ComfyUIClient.load_workflow` (client.py:54-73): `readResult` is the
outcome of `open` + `json.load` (its error string is the underlying OS or
parse error message). On failure the function re-raises with the path and
cause; it never returns an empty template. -/
def load_workflow (path : String) (readResult : Except String Workflow) :
    Except String Workflow :=
  match readResult with
  | .error e => .error ("Failed to load workflow from " ++ path ++ ": " ++ e)
  | .ok wf => .ok wf

/-- The response to the `POST /prompt` submission in
`ComfyUIClient.queue_prompt` (client.py:75-113): a raised transport or
JSON-parse error, or a status code together with the `"prompt_id"` field of
the parsed body (`none` when the key is absent). -/
inductive QueueResp where
  | transportErr (e : String)
  | http (status : Nat) (promptId : Option String)
deriving DecidableEq, Repr

/-- The message of the `HTTPStatusError` raised by
`response.raise_for_status()` on a non-2xx status. -/
def httpStatusMsg (status : Nat) : String :=
  "HTTP status error: " ++ toString status

/-- `ComfyUIClient.queue_prompt` (client.py:75-113): `raise_for_status`
rejects any non-2xx status; a missing or falsy (empty) `prompt_id` raises
`"No prompt_id in response"`; every failure is wrapped as
`"Failed to queue workflow: ..."` and re-raised. -/
def queue_prompt (resp : QueueResp) : Except String String :=
  match resp with
  | .transportErr e => .error ("Failed to queue workflow: " ++ e)
  | .http status promptId =>
    if is2xx status then
      match promptId with
      | none => .error ("Failed to queue workflow: No prompt_id in response")
      | some pid =>
        if pid = "" then
          .error ("Failed to queue workflow: No prompt_id in response")
        else .ok pid
    else .error ("Failed to queue workflow: " ++ httpStatusMsg status)

/-- C9: submission and template loading fail hard, never with a sentinel.
Every transport error, non-2xx status, and missing or empty `prompt_id`
makes `queue_prompt` raise a message naming the workflow submission; a
success value is only ever a non-empty `prompt_id` from a 2xx response.
Every read or parse failure makes `load_workflow` raise a message naming
the path and the underlying cause, and a returned template is always
exactly the parsed file content, never a silent empty template. -/
theorem submit_and_load_fail_hard :
    (∀ e, ∃ m, queue_prompt (QueueResp.transportErr e) =
        Except.error ("Failed to queue workflow: " ++ m))
    ∧ (∀ s pid, ¬ (200 ≤ s ∧ s < 300) →
        ∃ m, queue_prompt (QueueResp.http s pid) =
          Except.error ("Failed to queue workflow: " ++ m))
    ∧ (∀ s, is2xx s = true →
        queue_prompt (QueueResp.http s none) =
          Except.error ("Failed to queue workflow: No prompt_id in response")
        ∧ queue_prompt (QueueResp.http s (some "")) =
          Except.error ("Failed to queue workflow: No prompt_id in response"))
    ∧ (∀ r p, queue_prompt r = Except.ok p →
        ∃ s, r = QueueResp.http s (some p) ∧ is2xx s = true ∧ p ≠ "")
    ∧ (∀ path e, load_workflow path (Except.error e) =
        Except.error ("Failed to load workflow from " ++ path ++ ": " ++ e))
    ∧ (∀ path rr wf, load_workflow path rr = Except.ok wf →
        rr = Except.ok wf) := by
  refine ⟨fun e => ⟨e, rfl⟩, ?_, ?_, ?_, fun path e => rfl, ?_⟩
  · intro s pid hs
    have h2 : is2xx s = false := by
      simp only [is2xx, Bool.and_eq_false_iff, decide_eq_false_iff_not]
      omega
    exact ⟨httpStatusMsg s, by simp [queue_prompt, h2]⟩
  · intro s h2
    exact ⟨by simp [queue_prompt, h2], by simp [queue_prompt, h2]⟩
  · intro r p hok
    match r with
    | .transportErr e => simp [queue_prompt] at hok
    | .http s pid =>
      by_cases h2 : is2xx s
      · match pid with
        | none => simp [queue_prompt, h2] at hok
        | some q =>
          by_cases hq : q = ""
          · simp [queue_prompt, h2, hq] at hok
          · simp only [queue_prompt, h2, if_true, hq, if_false,
              Except.ok.injEq] at hok
            exact ⟨s, by simp [hok ▸ hq, ← hok], h2, hok ▸ hq⟩
      · simp [queue_prompt, h2] at hok
  · intro path rr wf hok
    match rr with
    | .error e => simp [load_workflow] at hok
    | .ok w => simpa [load_workflow] using hok

/-- Witness for C9: a timed-out submission, a 500 response, a 200 response
without `prompt_id`, and an unreadable template path all produce the
expected wrapped errors. -/
theorem submit_and_load_fail_hard_witness :
    (∃ m, queue_prompt (QueueResp.transportErr "timeout") =
        Except.error ("Failed to queue workflow: " ++ m))
    ∧ (∃ m, queue_prompt (QueueResp.http 500 (some "x")) =
        Except.error ("Failed to queue workflow: " ++ m))
    ∧ queue_prompt (QueueResp.http 200 none) =
        Except.error ("Failed to queue workflow: No prompt_id in response")
    ∧ load_workflow "flow.json" (Except.error "No such file or directory") =
        Except.error ("Failed to load workflow from " ++ "flow.json" ++ ": "
          ++ "No such file or directory") := by
  have h := submit_and_load_fail_hard
  exact ⟨h.1 "timeout", h.2.1 500 (some "x") (by omega),
    (h.2.2.1 200 (by decide)).1,
    h.2.2.2.2.1 "flow.json" "No such file or directory"⟩

/-- C8: transport-layer errors are absorbed, never propagated. Any raised
transport error and any non-2xx status makes `check_health` return `false`
(client.py:40-52); a failed `get_history` poll reads as "no record yet",
hence not complete; and the wait loop keeps polling past failed polls: any
completed poll strictly within the deadline — even if arbitrary earlier
polls failed — still makes `wait_for_completion` return `true`. -/
theorem health_and_poll_errors_absorbed (T P : Nat)
    (polls : Nat → Except String HistoryResp) (hP : 0 < P) :
    (∀ e, check_health (HttpResp.err e) = false)
    ∧ (∀ s b, ¬ (200 ≤ s ∧ s < 300) → check_health (HttpResp.ok s b) = false)
    ∧ (∀ e, historyCompleted (get_history (Except.error e)) = false)
    ∧ ((∃ m, m * P < T ∧
          historyCompleted (get_history (polls m)) = true) →
        (wait_for_completion T P polls).1 = true) := by
  refine ⟨fun e => rfl, ?_, fun e => rfl, ?_⟩
  · intro s b hs
    have hne : s ≠ 200 := by omega
    simp [check_health, hne]
  · intro hex
    set obs : Nat → Bool := fun n => historyCompleted (get_history (polls n))
      with hobs
    have hex' : ∃ k, k * P < T ∧ obs k = true := hex
    classical
    obtain ⟨hm, hmo⟩ := Nat.find_spec hex'
    have hmin : ∀ k, k < Nat.find hex' → obs k = false := by
      intro k hk
      have hkP : k * P < T :=
        Nat.lt_of_le_of_lt (Nat.mul_le_mul_right P (Nat.le_of_lt hk)) hm
      have := Nat.find_min hex' hk
      simp only [hkP, true_and] at this
      exact Bool.eq_false_iff.mpr this
    have hle : Nat.find hex' ≤ Nat.find hex' * P :=
      Nat.le_mul_of_pos_right _ hP
    exact waitAux_success T P obs (Nat.find hex') hm hmo hmin (T + 1) 0
      (Nat.zero_le _) (by omega)

/-- Witness for C8: a refused connection and a 500 status give an unhealthy
verdict, a reset poll reads as not-yet-complete, and a wait whose first poll
fails still succeeds on the second poll. -/
theorem health_and_poll_errors_absorbed_witness :
    check_health (HttpResp.err "connection refused") = false
    ∧ check_health (HttpResp.ok 500 "") = false
    ∧ historyCompleted (get_history (Except.error "connection reset")) = false
    ∧ (wait_for_completion 5 1
        (fun n => if n = 0 then Except.error "boom"
                  else Except.ok (some ⟨some []⟩))).1 = true := by
  have h := health_and_poll_errors_absorbed 5 1
    (fun n => if n = 0 then Except.error "boom"
              else Except.ok (some ⟨some []⟩)) (by decide)
  exact ⟨h.1 "connection refused", h.2.1 500 "" (by omega),
    h.2.2.1 "connection reset", h.2.2.2 ⟨1, by decide, by decide⟩⟩

/-- One normalized output descriptor as built by
`ComfyUIClient.get_output_files` (client.py:197-213): the dict
`{"type": ..., "filename": ..., "subfolder": ..., "node_id": ...}`. -/
structure OutFile where
  type : String
  filename : Option String
  subfolder : String
  node_id : String
deriving DecidableEq, Repr

/-- The per-node body of `get_output_files` (client.py:197-213): the
`"images"` entries first, then the `"audio"` entries; every other key of
the node output dict is never looked at. -/
def nodeFiles (nid : String) (nout : NodeOutput) : List OutFile :=
  (match lookupKey "images" nout with
   | some imgs => imgs.map (fun e =>
       { type := "image", filename := e.filename,
         subfolder := e.subfolder.getD "", node_id := nid })
   | none => []) ++
  (match lookupKey "audio" nout with
   | some auds => auds.map (fun e =>
       { type := "audio", filename := e.filename,
         subfolder := e.subfolder.getD "", node_id := nid })
   | none => [])

/-- `ComfyUIClient.get_output_files` (client.py:179-218) applied to the
history response `r` of its internal `get_history` call: `[]` when the
prompt id has no record, otherwise one descriptor per file listed under an
`"images"` or `"audio"` key of some node's output dict. -/
def get_output_files (r : Except String HistoryResp) : List OutFile :=
  match get_history r with
  | none => []
  | some pd =>
    (pd.outputs.getD []).foldl (fun acc p => acc ++ nodeFiles p.1 p.2) []

/-- The entries the code reads for one key of a node output dict:
`node_output[key]` when the key is present, nothing otherwise. -/
def keyEntries (key : String) (nout : NodeOutput) : List FileEntry :=
  match lookupKey key nout with
  | some l => l
  | none => []

/-- All entries listed under `key` across the nodes of a result structure,
each tagged with its originating node id, in node order. -/
def taggedEntries (key : String) (outs : List (String × NodeOutput)) :
    List (String × FileEntry) :=
  outs.flatMap (fun p => (keyEntries key p.2).map (fun e => (p.1, e)))

/-- `nodeFiles` is its image descriptors followed by its audio
descriptors. -/
lemma nodeFiles_eq_parts (nid : String) (nout : NodeOutput) :
    nodeFiles nid nout =
      (keyEntries "images" nout).map (fun e =>
        { type := "image", filename := e.filename,
          subfolder := e.subfolder.getD "", node_id := nid }) ++
      (keyEntries "audio" nout).map (fun e =>
        { type := "audio", filename := e.filename,
          subfolder := e.subfolder.getD "", node_id := nid }) := by
  unfold nodeFiles keyEntries
  cases lookupKey "images" nout <;> cases lookupKey "audio" nout <;> simp

/-- The fold of `get_output_files` is a flat map over the nodes. -/
lemma foldl_nodeFiles (outs : List (String × NodeOutput))
    (acc : List OutFile) :
    outs.foldl (fun acc p => acc ++ nodeFiles p.1 p.2) acc =
      acc ++ outs.flatMap (fun p => nodeFiles p.1 p.2) := by
  induction outs generalizing acc with
  | nil => simp
  | cons p t ih =>
    simp only [List.foldl_cons, List.flatMap_cons, ih, List.append_assoc]

/-- `get_output_files` on a completed multi-node record flat-maps
`nodeFiles` over the nodes. -/
lemma get_output_files_ok (outs : List (String × NodeOutput)) :
    get_output_files (Except.ok (some ⟨some outs⟩)) =
      outs.flatMap (fun p => nodeFiles p.1 p.2) := by
  simp [get_output_files, get_history, foldl_nodeFiles]

/-- The resolver output is exactly as long as the image and audio entry
lists of all nodes together. -/
lemma flatMap_nodeFiles_length (outs : List (String × NodeOutput)) :
    (outs.flatMap (fun p => nodeFiles p.1 p.2)).length =
      (taggedEntries "images" outs).length +
        (taggedEntries "audio" outs).length := by
  induction outs with
  | nil => rfl
  | cons p t ih =>
    simp only [List.flatMap_cons, taggedEntries, nodeFiles_eq_parts,
      List.length_append, List.length_map] at ih ⊢
    omega

/-- An image entry of some node yields its image descriptor in the
resolver output. -/
lemma mem_image_desc (outs : List (String × NodeOutput))
    (pr : String × FileEntry) (h : pr ∈ taggedEntries "images" outs) :
    ({ type := "image", filename := pr.2.filename,
       subfolder := pr.2.subfolder.getD "", node_id := pr.1 } : OutFile) ∈
      outs.flatMap (fun p => nodeFiles p.1 p.2) := by
  rcases List.mem_flatMap.mp h with ⟨p, hp, hpr⟩
  apply List.mem_flatMap.mpr
  refine ⟨p, hp, ?_⟩
  rw [nodeFiles_eq_parts]
  apply List.mem_append_left
  rcases List.mem_map.mp hpr with ⟨e, he, heq⟩
  subst heq
  exact List.mem_map_of_mem _ he

/-- An audio entry of some node yields its audio descriptor in the
resolver output. -/
lemma mem_audio_desc (outs : List (String × NodeOutput))
    (pr : String × FileEntry) (h : pr ∈ taggedEntries "audio" outs) :
    ({ type := "audio", filename := pr.2.filename,
       subfolder := pr.2.subfolder.getD "", node_id := pr.1 } : OutFile) ∈
      outs.flatMap (fun p => nodeFiles p.1 p.2) := by
  rcases List.mem_flatMap.mp h with ⟨p, hp, hpr⟩
  apply List.mem_flatMap.mpr
  refine ⟨p, hp, ?_⟩
  rw [nodeFiles_eq_parts]
  apply List.mem_append_right
  rcases List.mem_map.mp hpr with ⟨e, he, heq⟩
  subst heq
  exact List.mem_map_of_mem _ he

/-- A two-element list containing two distinct members is one of their two
orders. -/
lemma length_two_eq {α : Type} (l : List α) (x y : α) (hl : l.length = 2)
    (hx : x ∈ l) (hy : y ∈ l) (hxy : x ≠ y) :
    l = [x, y] ∨ l = [y, x] := by
  cases l with
  | nil => simp at hl
  | cons u l1 =>
    cases l1 with
    | nil => simp at hl
    | cons v l2 =>
      cases l2 with
      | nil =>
        rcases List.mem_pair.mp hx with rfl | rfl
        · rcases List.mem_pair.mp hy with rfl | rfl
          · exact absurd rfl hxy
          · exact Or.inl rfl
        · rcases List.mem_pair.mp hy with rfl | rfl
          · exact Or.inr rfl
          · exact absurd rfl hxy
      | cons w l3 => simp at hl

/-- C5: on a completed result structure whose nodes together contain
exactly one entry under an `"audio"` list (in node `nidA`) and exactly one
entry under an `"images"` list (in node `nidI`) — the two possibly in
different nodes, with arbitrary further nodes and arbitrary entries under
any other key, all ignored without error — `get_output_files` returns
exactly two descriptors: the image one and the audio one, each carrying
the entry's filename, its subfolder (defaulted to `""`) and the
originating node id. -/
theorem get_output_files_one_audio_one_image
    (outs : List (String × NodeOutput)) (nidI nidA : String)
    (i a : FileEntry)
    (hI : taggedEntries "images" outs = [(nidI, i)])
    (hA : taggedEntries "audio" outs = [(nidA, a)]) :
    (get_output_files (Except.ok (some ⟨some outs⟩))).length = 2
    ∧ ({ type := "image", filename := i.filename,
         subfolder := i.subfolder.getD "", node_id := nidI } : OutFile) ∈
        get_output_files (Except.ok (some ⟨some outs⟩))
    ∧ ({ type := "audio", filename := a.filename,
         subfolder := a.subfolder.getD "", node_id := nidA } : OutFile) ∈
        get_output_files (Except.ok (some ⟨some outs⟩))
    ∧ (get_output_files (Except.ok (some ⟨some outs⟩)) =
        [{ type := "image", filename := i.filename,
           subfolder := i.subfolder.getD "", node_id := nidI },
         { type := "audio", filename := a.filename,
           subfolder := a.subfolder.getD "", node_id := nidA }]
      ∨ get_output_files (Except.ok (some ⟨some outs⟩)) =
        [{ type := "audio", filename := a.filename,
           subfolder := a.subfolder.getD "", node_id := nidA },
         { type := "image", filename := i.filename,
           subfolder := i.subfolder.getD "", node_id := nidI }]) := by
  have hout := get_output_files_ok outs
  have hlen : (get_output_files (Except.ok (some ⟨some outs⟩))).length = 2 := by
    rw [hout, flatMap_nodeFiles_length, hI, hA]
    rfl
  have hmi : ({ type := "image", filename := i.filename,
                subfolder := i.subfolder.getD "",
                node_id := nidI } : OutFile) ∈
      get_output_files (Except.ok (some ⟨some outs⟩)) := by
    rw [hout]
    exact mem_image_desc outs (nidI, i) (by rw [hI]; exact List.mem_singleton.mpr rfl)
  have hma : ({ type := "audio", filename := a.filename,
                subfolder := a.subfolder.getD "",
                node_id := nidA } : OutFile) ∈
      get_output_files (Except.ok (some ⟨some outs⟩)) := by
    rw [hout]
    exact mem_audio_desc outs (nidA, a) (by rw [hA]; exact List.mem_singleton.mpr rfl)
  have hne : ({ type := "image", filename := i.filename,
                subfolder := i.subfolder.getD "",
                node_id := nidI } : OutFile) ≠
      { type := "audio", filename := a.filename,
        subfolder := a.subfolder.getD "", node_id := nidA } := by
    intro h
    have ht : ("image" : String) = "audio" := congrArg OutFile.type h
    exact absurd ht (by decide)
  exact ⟨hlen, hmi, hma, length_two_eq _ _ _ hlen hmi hma hne⟩

/-- Concrete result structure for the C5 witness: the single audio entry
and the single image entry live in two different nodes, and a third node
carries only an unrecognized `"latents"` key. -/
def outsC5 : List (String × NodeOutput) :=
  [("3", [("latents", [⟨some "z.latent", none⟩])]),
   ("7", [("audio", [⟨some "gen.flac", some "audio"⟩])]),
   ("9", [("images", [⟨some "gen.png", none⟩])])]

/-- Witness for C5 on `outsC5`: exactly two descriptors come back, the
image one from node 9 and the audio one from node 7. -/
theorem get_output_files_one_audio_one_image_witness :
    taggedEntries "images" outsC5 = [("9", ⟨some "gen.png", none⟩)]
    ∧ taggedEntries "audio" outsC5 = [("7", ⟨some "gen.flac", some "audio"⟩)]
    ∧ ((get_output_files (Except.ok (some ⟨some outsC5⟩))).length = 2
      ∧ ({ type := "image", filename := some "gen.png",
           subfolder := (none : Option String).getD "",
           node_id := "9" } : OutFile) ∈
          get_output_files (Except.ok (some ⟨some outsC5⟩))
      ∧ ({ type := "audio", filename := some "gen.flac",
           subfolder := (some "audio" : Option String).getD "",
           node_id := "7" } : OutFile) ∈
          get_output_files (Except.ok (some ⟨some outsC5⟩))
      ∧ (get_output_files (Except.ok (some ⟨some outsC5⟩)) =
          [{ type := "image", filename := some "gen.png",
             subfolder := (none : Option String).getD "", node_id := "9" },
           { type := "audio", filename := some "gen.flac",
             subfolder := (some "audio" : Option String).getD "",
             node_id := "7" }]
        ∨ get_output_files (Except.ok (some ⟨some outsC5⟩)) =
          [{ type := "audio", filename := some "gen.flac",
             subfolder := (some "audio" : Option String).getD "",
             node_id := "7" },
           { type := "image", filename := some "gen.png",
             subfolder := (none : Option String).getD "", node_id := "9" }])) :=
  ⟨by decide, by decide,
    get_output_files_one_audio_one_image outsC5 "9" "7"
      ⟨some "gen.png", none⟩ ⟨some "gen.flac", some "audio"⟩
      (by decide) (by decide)⟩

/-- ASCII word character, Python's `\w`: letter, digit or underscore. -/
def isWordChar (c : Char) : Bool := c.isAlphanum || c = '_'

/-- ASCII whitespace, Python's `\s`. -/
def isSpaceChar (c : Char) : Bool :=
  c = ' ' || c = '\t' || c = '\n' || c = '\r' || c = '\x0b' || c = '\x0c'

/-- The character class `[-\s]` of the second substitution. -/
def isDashOrSpace (c : Char) : Bool := c = '-' || isSpaceChar c

/-- `re.sub(r'[^\w\s-]', '', content)` (utils.py:42): drop every character
that is not a word character, whitespace or a dash. -/
def sanitize (l : List Char) : List Char :=
  l.filter (fun c => isWordChar c || isSpaceChar c || c = '-')

/-- `re.sub(r'[-\s]+', '_', s)` (utils.py:43): replace each maximal run of
dashes and whitespace by a single underscore. `inRun` records whether the
previous character belonged to the current run. -/
def collapseRuns : Bool → List Char → List Char
  | _, [] => []
  | inRun, c :: rest =>
    if isDashOrSpace c then
      if inRun then collapseRuns true rest
      else '_' :: collapseRuns true rest
    else c :: collapseRuns false rest

/-- `.strip(c)`: remove the character from both ends. -/
def stripChar (c : Char) (l : List Char) : List Char :=
  ((l.dropWhile (· == c)).reverse.dropWhile (· == c)).reverse

/-- The slug computation of `make_output_file` (utils.py:42-43): sanitize,
take the first 30 characters of the result, collapse dash/space runs to
underscores, strip underscores from both ends. -/
def slugOf (content : String) : String :=
  ⟨stripChar '_' (collapseRuns false ((sanitize content.data).take 30))⟩

/-- `make_output_file` (utils.py:25-51). The Python function reads the
timestamp from `datetime.now()` with format `%Y%m%d_%H%M%S` (one-second
resolution); that I/O value is passed here as the `timestamp` argument. -/
def make_output_file (pfx content timestamp ext : String) : String :=
  let slug := slugOf content
  if slug = "" then pfx ++ "_" ++ timestamp ++ "." ++ ext
  else pfx ++ "_" ++ slug ++ "_" ++ timestamp ++ "." ++ ext

/-- The two unfoldings of `collapseRuns` over a dash/space head. -/
lemma collapseRuns_cons_dash (hd : Char) (t : List Char)
    (h : isDashOrSpace hd = true) :
    collapseRuns true (hd :: t) = collapseRuns true t ∧
    collapseRuns false (hd :: t) = '_' :: collapseRuns true t := by
  constructor <;> simp [collapseRuns, h]

/-- The unfolding of `collapseRuns` over an ordinary head. -/
lemma collapseRuns_cons_keep (hd : Char) (t : List Char) (b : Bool)
    (h : isDashOrSpace hd = false) :
    collapseRuns b (hd :: t) = hd :: collapseRuns false t := by
  simp [collapseRuns, h]

/-- Every character emitted by the run-collapsing substitution is either an
underscore or a non-dash-non-space character of the input. -/
lemma collapseRuns_chars (b : Bool) (l : List Char) :
    ∀ c ∈ collapseRuns b l, c = '_' ∨ (c ∈ l ∧ isDashOrSpace c = false) := by
  induction l generalizing b with
  | nil => intro c hc; simp [collapseRuns] at hc
  | cons hd t ih =>
    intro c hc
    rcases Bool.eq_false_or_eq_true (isDashOrSpace hd) with hdash | hdash
    · cases b with
      | false =>
        rw [(collapseRuns_cons_dash hd t hdash).2] at hc
        rcases List.mem_cons.mp hc with heq | hc2
        · exact Or.inl heq
        · rcases ih true c hc2 with h | ⟨hmem, hnd⟩
          · exact Or.inl h
          · exact Or.inr ⟨List.mem_cons_of_mem hd hmem, hnd⟩
      | true =>
        rw [(collapseRuns_cons_dash hd t hdash).1] at hc
        rcases ih true c hc with h | ⟨hmem, hnd⟩
        · exact Or.inl h
        · exact Or.inr ⟨List.mem_cons_of_mem hd hmem, hnd⟩
    · rw [collapseRuns_cons_keep hd t b hdash] at hc
      rcases List.mem_cons.mp hc with heq | hc2
      · subst heq; exact Or.inr ⟨List.mem_cons_self _ _, hdash⟩
      · rcases ih false c hc2 with h | ⟨hmem, hnd⟩
        · exact Or.inl h
        · exact Or.inr ⟨List.mem_cons_of_mem hd hmem, hnd⟩

/-- Collapsing runs never lengthens the string. -/
lemma collapseRuns_length (b : Bool) (l : List Char) :
    (collapseRuns b l).length ≤ l.length := by
  induction l generalizing b with
  | nil => simp [collapseRuns]
  | cons hd t ih =>
    rcases Bool.eq_false_or_eq_true (isDashOrSpace hd) with hdash | hdash
    · cases b with
      | false =>
        rw [(collapseRuns_cons_dash hd t hdash).2, List.length_cons,
          List.length_cons]
        exact Nat.succ_le_succ (ih true)
      | true =>
        rw [(collapseRuns_cons_dash hd t hdash).1]
        exact Nat.le_succ_of_le (ih true)
    · rw [collapseRuns_cons_keep hd t b hdash, List.length_cons,
        List.length_cons]
      exact Nat.succ_le_succ (ih false)

/-- Stripping a character from both ends keeps a sublist: membership and
length are preserved downwards. -/
lemma stripChar_subset (c : Char) (l : List Char) :
    ∀ x ∈ stripChar c l, x ∈ l := by
  intro x hx
  simp only [stripChar, List.mem_reverse] at hx
  have h1 := (List.dropWhile_sublist (· == c)).subset hx
  rw [List.mem_reverse] at h1
  exact (List.dropWhile_sublist (· == c)).subset h1

/-- Stripping never lengthens the string. -/
lemma stripChar_length (c : Char) (l : List Char) :
    (stripChar c l).length ≤ l.length := by
  simp only [stripChar, List.length_reverse]
  calc ((l.dropWhile (· == c)).reverse.dropWhile (· == c)).length
      ≤ (l.dropWhile (· == c)).reverse.length :=
        (List.dropWhile_sublist (· == c)).length_le
    _ = (l.dropWhile (· == c)).length := List.length_reverse _
    _ ≤ l.length := (List.dropWhile_sublist (· == c)).length_le

/-- The slug is at most 30 characters long and consists of word characters
only. -/
lemma slugOf_safety (content : String) :
    (slugOf content).length ≤ 30
    ∧ ∀ c ∈ (slugOf content).data, isWordChar c = true := by
  constructor
  · show (stripChar '_' (collapseRuns false ((sanitize content.data).take 30))).length ≤ 30
    calc (stripChar '_' (collapseRuns false ((sanitize content.data).take 30))).length
        ≤ (collapseRuns false ((sanitize content.data).take 30)).length :=
          stripChar_length _ _
      _ ≤ ((sanitize content.data).take 30).length := collapseRuns_length _ _
      _ ≤ 30 := by simp
  · intro c hc
    have h1 := stripChar_subset '_' _ c hc
    rcases collapseRuns_chars false _ c h1 with rfl | ⟨hmem, hnd⟩
    · rfl
    · have h2 : c ∈ sanitize content.data := List.mem_of_mem_take hmem
      have h3 := List.of_mem_filter h2
      simp only [isDashOrSpace, Bool.or_eq_false_iff] at hnd
      simp only [Bool.or_eq_true] at h3
      rcases h3 with (hw | hs) | hd
      · exact hw
      · rw [hnd.2] at hs; exact absurd hs (by simp)
      · rw [hd] at hnd; exact absurd hnd.1 (by simp)

/-- C3 counterexample: two runs of the same generation request with
identical input content do not always produce distinct filenames. The
timestamp has one-second resolution, so two invocations within the same
second — here both with `datetime.now()` formatting to
`"20260101_120000"` — return the very same filename, which is then
silently overwritten. -/
theorem make_output_file_same_second_collision :
    make_output_file "localai_tts" "hello world" "20260101_120000" "wav" =
      make_output_file "localai_tts" "hello world" "20260101_120000" "wav"
    ∧ make_output_file "localai_tts" "hello world" "20260101_120000" "wav" =
      "localai_tts_hello_world_20260101_120000.wav" :=
  ⟨rfl, by decide⟩

/-- C3 amended: the LocalAI `make_output_file` path produces distinct
filenames for two runs with identical input content whenever the two runs
observe different second-resolution timestamps; the timestamp occupies a
fixed slot of the name, so different timestamps force different names. -/
theorem make_output_file_distinct_timestamps (pfx c ext ts₁ ts₂ : String)
    (hne : ts₁ ≠ ts₂) :
    make_output_file pfx c ts₁ ext ≠ make_output_file pfx c ts₂ ext := by
  intro heq
  apply hne
  simp only [make_output_file] at heq
  by_cases hs : slugOf c = ""
  · rw [if_pos hs, if_pos hs] at heq
    have hd := congrArg String.data heq
    simp only [String.data_append, List.append_assoc] at hd
    have h3 := List.append_cancel_right
      (List.append_cancel_left (List.append_cancel_left hd))
    cases ts₁; cases ts₂; simp_all
  · rw [if_neg hs, if_neg hs] at heq
    have hd := congrArg String.data heq
    simp only [String.data_append, List.append_assoc] at hd
    have h5 := List.append_cancel_right
      (List.append_cancel_left (List.append_cancel_left
        (List.append_cancel_left (List.append_cancel_left hd))))
    cases ts₁; cases ts₂; simp_all

/-- Witness for the amended C3: two runs one second apart give different
filenames. -/
theorem make_output_file_distinct_timestamps_witness :
    ("20260101_120000" : String) ≠ "20260101_120001"
    ∧ make_output_file "localai_tts" "hello world" "20260101_120000" "wav" ≠
      make_output_file "localai_tts" "hello world" "20260101_120001" "wav" :=
  ⟨by decide, make_output_file_distinct_timestamps "localai_tts" "hello world"
    "wav" "20260101_120000" "20260101_120001" (by decide)⟩

/-- C10 counterexample: the slug is not derived from the first 30
characters of the content. The special characters are removed first and the
truncation applies to the cleaned text, so two contents agreeing on their
first 30 characters (30 exclamation marks) but differing afterwards still
produce different slugs, hence different filenames. -/
theorem make_output_file_slug_beyond_first_30 :
    ("!!!!!!!!!!!!!!!!!!!!!!!!!!!!!!abc" : String).data.take 30 =
      ("!!!!!!!!!!!!!!!!!!!!!!!!!!!!!!xyz" : String).data.take 30
    ∧ make_output_file "tts" "!!!!!!!!!!!!!!!!!!!!!!!!!!!!!!abc"
        "20260101_120000" "wav" ≠
      make_output_file "tts" "!!!!!!!!!!!!!!!!!!!!!!!!!!!!!!xyz"
        "20260101_120000" "wav" := by
  constructor
  · decide
  · decide

/-- C10 amended: `make_output_file` returns
`prefix_<slug>_<timestamp>.<extension>` (or `prefix_<timestamp>.<extension>`
when the slug is empty), where the slug is derived from at most the first
30 characters of the *sanitized* content and contains only word characters
(letters, digits, underscore) — in particular never a path separator or a
dot, so the artifact name cannot escape the chosen output directory. -/
theorem make_output_file_slug_safety (pfx content ts ext : String) :
    (make_output_file pfx content ts ext =
       if slugOf content = "" then pfx ++ "_" ++ ts ++ "." ++ ext
       else pfx ++ "_" ++ slugOf content ++ "_" ++ ts ++ "." ++ ext)
    ∧ (slugOf content).length ≤ 30
    ∧ (∀ c ∈ (slugOf content).data, isWordChar c = true)
    ∧ (∀ c ∈ (slugOf content).data, c ≠ '/' ∧ c ≠ '\\' ∧ c ≠ '.') := by
  refine ⟨rfl, (slugOf_safety content).1, (slugOf_safety content).2, ?_⟩
  intro c hc
  have hw := (slugOf_safety content).2 c hc
  refine ⟨?_, ?_, ?_⟩ <;> rintro rfl <;> exact absurd hw (by decide)

/-- Witness for the amended C10 on a content string holding slashes, dots
and spaces. -/
theorem make_output_file_slug_safety_witness :
    (make_output_file "localai_audio" "dark / techno .. loop!"
        "20260102_030405" "wav" =
       if slugOf "dark / techno .. loop!" = "" then
         "localai_audio" ++ "_" ++ "20260102_030405" ++ "." ++ "wav"
       else "localai_audio" ++ "_" ++ slugOf "dark / techno .. loop!" ++ "_"
         ++ "20260102_030405" ++ "." ++ "wav")
    ∧ (slugOf "dark / techno .. loop!").length ≤ 30
    ∧ (∀ c ∈ (slugOf "dark / techno .. loop!").data, isWordChar c = true)
    ∧ (∀ c ∈ (slugOf "dark / techno .. loop!").data,
        c ≠ '/' ∧ c ≠ '\\' ∧ c ≠ '.') :=
  make_output_file_slug_safety "localai_audio" "dark / techno .. loop!"
    "20260102_030405" "wav"

/-- The environment of one `execute_workflow` call (server.py:52-154): the
oracle answers of the ComfyUI backend and filesystem. `wfPath` is
`workflow_path or COMFYUI_WORKFLOW_PATH` (`none` when both are empty),
`loadResult` the outcome of `open` + `json.load`, `queueResult` the
submission response for the (injected) workflow, `polls` the history
responses seen by the wait loop, `finalHistory` the history response of the
`get_output_files` call, and `download` the `/view` download outcome. -/
structure ComfyEnv where
  healthy : Bool
  wfPath : Option String
  loadResult : Except String Workflow
  queueResult : Workflow → Except String String
  polls : Nat → Except String HistoryResp
  finalHistory : Except String HistoryResp
  download : OutFile → Except String (List Nat)

/-- The outcome reported by `execute_workflow` (which error/success text it
returns). -/
inductive ExecResult where
  | healthError
  | noPathError
  | loadError (msg : String)
  | queueError (msg : String)
  | timedOut
  | noOutputs
  | saved (paths : List String)
  | noneSaved
deriving DecidableEq, Repr

/-- Result of one `execute_workflow` call together with the download calls
it issued (`attempted`) and the files it saved. -/
structure ExecTrace where
  result : ExecResult
  attempted : List OutFile
  saved : List String
deriving DecidableEq, Repr

/-- The inner try block of the download loop (server.py:123-138): download
the file, write it to `output_path / filename`, and on any exception log
and continue (`none`). A descriptor whose filename is absent makes the
path-join raise, which the same except-clause absorbs. -/
def attemptDownload (env : ComfyEnv) (outDir : String) (f : OutFile) :
    Option String :=
  match f.filename with
  | none => none
  | some name =>
    match env.download f with
    | .error _ => none
    | .ok _ => some (outDir ++ "/" ++ name)

/-- The download loop of `execute_workflow` (server.py:122-138): process
every descriptor independently, collecting the saved paths; failures are
skipped, never propagated. -/
def download_and_save (dl : OutFile → Option String) (files : List OutFile) :
    List String :=
  files.filterMap dl

/-- `execute_workflow` (server.py:52-154) as a function of its oracle
environment, output directory, wait parameters and optional prompt text
(the optional `workflow_params` JSON injection, which also happens before
submission, is not modelled). -/
def execute_workflow (env : ComfyEnv) (outDir : String) (T P : Nat)
    (promptText : Option String) : ExecTrace :=
  if env.healthy = false then ⟨.healthError, [], []⟩
  else match env.wfPath with
  | none => ⟨.noPathError, [], []⟩
  | some _ =>
    match env.loadResult with
    | .error e => ⟨.loadError e, [], []⟩
    | .ok wf =>
      let wf2 := match promptText with
        | some t => injectText t wf
        | none => wf
      match env.queueResult wf2 with
      | .error e => ⟨.queueError e, [], []⟩
      | .ok _pid =>
        if (wait_for_completion T P env.polls).1 = false then ⟨.timedOut, [], []⟩
        else
          let files := get_output_files env.finalHistory
          if files.isEmpty then ⟨.noOutputs, [], []⟩
          else
            let saved := download_and_save (attemptDownload env outDir) files
            if saved.isEmpty then ⟨.noneSaved, files, saved⟩
            else ⟨.saved saved, files, saved⟩

/-- The value stored for one stem in the UVR5 separation result: raw bytes
or a string to be encoded on write (server.py:114-117). -/
inductive StemData where
  | bin (bytes : List Nat)
  | txt (s : String)
deriving DecidableEq, Repr

/-- A parsed UVR5 separation response or job-result record: the optional
`"job_id"`, the optional `"status"` and the `"stems"` mapping. -/
structure SepResult where
  jobId : Option String
  status : Option String
  stems : List (String × StemData)
deriving DecidableEq, Repr

/-- The environment of one `separate_audio` call (uvr5_mcp/server.py:52-156).
`sepResult` is the `client.separate_audio` outcome (it raises on failure),
`getResult` models `client.get_separation_result`, which absorbs its own
errors into a `{"status": "error"}` record, and `downloadStem` the
`client.download_stem` outcome for a job id and stem type. -/
structure UVR5Env where
  healthy : Bool
  fileExists : Bool
  sepResult : Except String SepResult
  getResult : String → SepResult
  downloadStem : String → String → Except String (List Nat)

/-- Result of one `separate_audio` call: whether it returned the
"Separation in progress" message, which `download_stem` calls it issued,
which stem files it saved, and the error message of an early exit. -/
structure SepTrace where
  inProgress : Bool
  stemAttempts : List String
  saved : List String
  errorMsg : Option String
deriving DecidableEq, Repr

/-- One stem's try block (server.py:105-140): with a job id the stem is
downloaded (failure absorbed), otherwise the bytes already present in the
result record are written; the saved path is
`output_path / f"{base_name}_{stem}.{output_format}"`. -/
def tryStem (env : UVR5Env) (outDir baseName fmt : String)
    (jobId : Option String) (stem : String) : Option String :=
  match jobId with
  | some j =>
    match env.downloadStem j stem with
    | .error _ => none
    | .ok _ => some (outDir ++ "/" ++ baseName ++ "_" ++ stem ++ "." ++ fmt)
  | none => some (outDir ++ "/" ++ baseName ++ "_" ++ stem ++ "." ++ fmt)

/-- The two stem blocks of `separate_audio` (server.py:101-140): vocals
then instrumental, each guarded by its extract flag and by the stem being
listed in the result's `"stems"` mapping; `download_stem` is called only
when a job id exists. -/
def processStems (env : UVR5Env) (outDir baseName fmt : String)
    (extractVocals extractInstrumental : Bool) (jobId : Option String)
    (jobResult : SepResult) : SepTrace :=
  let doV := extractVocals && (lookupKey "vocals" jobResult.stems).isSome
  let doI := extractInstrumental &&
    (lookupKey "instrumental" jobResult.stems).isSome
  let vAttempt : List String := if doV && jobId.isSome then ["vocals"] else []
  let iAttempt : List String :=
    if doI && jobId.isSome then ["instrumental"] else []
  let vSaved : Option String :=
    if doV then tryStem env outDir baseName fmt jobId "vocals" else none
  let iSaved : Option String :=
    if doI then tryStem env outDir baseName fmt jobId "instrumental" else none
  ⟨false, vAttempt ++ iAttempt, vSaved.toList ++ iSaved.toList, none⟩

/-- `separate_audio` (uvr5_mcp/server.py:52-156) as a function of its
oracle environment: health check, file check, submission, then — when the
response carries a job id — the status gate (`status != "completed"`
returns "in progress" without touching any stem), then the stem blocks. -/
def separate_audio (env : UVR5Env) (outDir baseName fmt : String)
    (extractVocals extractInstrumental : Bool) : SepTrace :=
  if env.healthy = false then ⟨false, [], [], some "cannot connect"⟩
  else if env.fileExists = false then ⟨false, [], [], some "file not found"⟩
  else match env.sepResult with
  | .error e => ⟨false, [], [], some ("Error: " ++ e)⟩
  | .ok result =>
    match result.jobId with
    | some jobId =>
      let jobResult := env.getResult jobId
      if jobResult.status = some "completed" then
        processStems env outDir baseName fmt extractVocals
          extractInstrumental (some jobId) jobResult
      else ⟨true, [], [], none⟩
    | none =>
      processStems env outDir baseName fmt extractVocals
        extractInstrumental none result

/-- C4: no artifact bytes are requested before the job completed. In
`execute_workflow`, any issued download call implies the wait loop returned
`true`; `get_output_files` returns no descriptor when the history record
lacks an `"outputs"` section; and in `separate_audio`, any `download_stem`
call implies the submission returned a job id whose polled status is
`"completed"`. -/
theorem no_download_before_completion :
    (∀ env outDir T P pt,
        (execute_workflow env outDir T P pt).attempted ≠ [] →
          (wait_for_completion T P env.polls).1 = true)
    ∧ (∀ r, historyCompleted (get_history r) = false → get_output_files r = [])
    ∧ (∀ env outDir baseName fmt ev ei,
        (separate_audio env outDir baseName fmt ev ei).stemAttempts ≠ [] →
          ∃ r j, env.sepResult = Except.ok r ∧ r.jobId = some j ∧
            (env.getResult j).status = some "completed") := by
  refine ⟨?_, ?_, ?_⟩
  · intro env outDir T P pt h
    simp only [execute_workflow] at h
    split at h
    · simp at h
    · split at h
      · simp at h
      · split at h
        · simp at h
        · split at h
          · simp at h
          · split at h
            · simp at h
            · rename_i hw
              cases hb : (wait_for_completion T P env.polls).1
              · exact absurd rfl (hb ▸ hw)
              · rfl
  · intro r h
    cases hr : get_history r with
    | none => simp [get_output_files, hr]
    | some pd =>
      cases ho : pd.outputs with
      | none => simp [get_output_files, hr, ho]
      | some outs =>
        rw [hr] at h
        simp [historyCompleted, ho] at h
  · intro env outDir baseName fmt ev ei h
    simp only [separate_audio] at h
    split at h
    · simp at h
    · split at h
      · simp at h
      · split at h
        · simp at h
        · rename_i result hres
          split at h
          · rename_i jobId hjob
            split at h
            · rename_i hstatus
              exact ⟨result, jobId, hres, hjob, hstatus⟩
            · simp at h
          · simp [processStems] at h

/-- Concrete ComfyUI environment for the C4 witness: healthy backend, a
template that loads, a submission that queues, a backend that completes at
the first poll, one audio output, downloads succeeding. -/
def envC4 : ComfyEnv :=
  ⟨true, some "wf.json", Except.ok [], fun _ => Except.ok "pid-1",
   fun _ => Except.ok (some ⟨some []⟩),
   Except.ok (some ⟨some [("9", [("audio", [⟨some "a.flac", none⟩])])]⟩),
   fun _ => Except.ok [1]⟩

/-- Concrete UVR5 environment for the C4 witness: async submission whose
polled status is completed, with both stems listed. -/
def envC4u : UVR5Env :=
  ⟨true, true, Except.ok ⟨some "j1", none, []⟩,
   fun _ => ⟨none, some "completed",
     [("vocals", StemData.bin [0]), ("instrumental", StemData.bin [0])]⟩,
   fun _ _ => Except.ok [0]⟩

/-- Witness for C4: a run that does download artifacts indeed had a
successful wait and a completed job, and a record without outputs yields no
descriptors. -/
theorem no_download_before_completion_witness :
    (execute_workflow envC4 "out" 5 1 none).attempted ≠ []
    ∧ (wait_for_completion 5 1 envC4.polls).1 = true
    ∧ get_output_files (Except.ok (some ⟨none⟩)) = []
    ∧ (separate_audio envC4u "out" "song" "wav" true true).stemAttempts ≠ []
    ∧ (∃ r j, envC4u.sepResult = Except.ok r ∧ r.jobId = some j ∧
        (envC4u.getResult j).status = some "completed") := by
  have h := no_download_before_completion
  exact ⟨by decide, h.1 envC4 "out" 5 1 none (by decide),
    h.2.1 (Except.ok (some ⟨none⟩)) (by decide), by decide,
    h.2.2 envC4u "out" "song" "wav" true true (by decide)⟩

/-- The saved paths and the skipped failures of the download loop exactly
partition the descriptor batch. -/
lemma length_filterMap_add_countP {α β : Type} (g : α → Option β)
    (l : List α) :
    (l.filterMap g).length + l.countP (fun a => (g a).isNone) = l.length := by
  induction l with
  | nil => rfl
  | cons a t ih =>
    cases hg : g a with
    | none =>
      simp [List.filterMap_cons, hg, List.countP_cons]
      omega
    | some b =>
      simp [List.filterMap_cons, hg, List.countP_cons]
      omega

/-- C6: the download loop of `execute_workflow` over a batch in which the
download-and-write step fails for exactly one descriptor returns exactly
`N - 1` saved paths, and every successfully saved path is in the returned
list (each artifact is processed independently); no exception escapes the
loop — the failure is absorbed into the skipped entry. -/
theorem download_loop_partial_failure (env : ComfyEnv) (outDir : String)
    (files : List OutFile)
    (h : files.countP (fun f => (attemptDownload env outDir f).isNone) = 1) :
    (download_and_save (attemptDownload env outDir) files).length =
      files.length - 1
    ∧ ∀ f ∈ files, ∀ p, attemptDownload env outDir f = some p →
        p ∈ download_and_save (attemptDownload env outDir) files := by
  constructor
  · have hp := length_filterMap_add_countP (attemptDownload env outDir) files
    rw [h] at hp
    unfold download_and_save
    omega
  · intro f hf p hp
    exact List.mem_filterMap.mpr ⟨f, hf, hp⟩

/-- Concrete environment for the C6 witness: the download of `bad.wav`
fails, every other download succeeds. -/
def envC6 : ComfyEnv :=
  ⟨true, none, Except.error "", fun _ => Except.error "",
   fun _ => Except.ok none, Except.ok none,
   fun f => if f.filename = some "bad.wav" then Except.error "404"
            else Except.ok [1]⟩

/-- Witness for C6 on a batch of three descriptors with exactly one failing
download: two saved paths come back. -/
theorem download_loop_partial_failure_witness :
    (([⟨"audio", some "a.wav", "", "1"⟩, ⟨"audio", some "bad.wav", "", "2"⟩,
       ⟨"image", some "c.png", "", "3"⟩] : List OutFile).countP
        (fun f => (attemptDownload envC6 "out" f).isNone) = 1)
    ∧ ((download_and_save (attemptDownload envC6 "out")
          [⟨"audio", some "a.wav", "", "1"⟩, ⟨"audio", some "bad.wav", "", "2"⟩,
           ⟨"image", some "c.png", "", "3"⟩]).length =
        ([⟨"audio", some "a.wav", "", "1"⟩, ⟨"audio", some "bad.wav", "", "2"⟩,
          ⟨"image", some "c.png", "", "3"⟩] : List OutFile).length - 1
      ∧ ∀ f ∈ ([⟨"audio", some "a.wav", "", "1"⟩,
          ⟨"audio", some "bad.wav", "", "2"⟩,
          ⟨"image", some "c.png", "", "3"⟩] : List OutFile),
          ∀ p, attemptDownload envC6 "out" f = some p →
            p ∈ download_and_save (attemptDownload envC6 "out")
              [⟨"audio", some "a.wav", "", "1"⟩,
               ⟨"audio", some "bad.wav", "", "2"⟩,
               ⟨"image", some "c.png", "", "3"⟩]) :=
  ⟨by decide, download_loop_partial_failure envC6 "out"
    [⟨"audio", some "a.wav", "", "1"⟩, ⟨"audio", some "bad.wav", "", "2"⟩,
     ⟨"image", some "c.png", "", "3"⟩] (by decide)⟩

end AbletonMCP
